import Mathlib

/-!
Verification development for the SlideTrans pipeline: a shallow embedding of
the style-markup codec, the batching orchestrator, the translation gateway
serialization and the layout reflow engine, together with theorems settling
the behavioural claims about them.

Python machine floats are modelled by exact rationals; Python ints by
unbounded integers.  Mutation of document objects is modelled by pure
functions returning the updated value.
-/

namespace SlideTrans

/-! ## Python string semantics helpers -/

/-- The apostrophe character, kept out of literals. -/
def aposChar : Char := Char.ofNat 39

/-- Does the first character list start with the second one? -/
def startsWithSeq : List Char → List Char → Bool
  | _, [] => true
  | [], _ :: _ => false
  | a :: as, b :: bs => a == b && startsWithSeq as bs

/-- Python substring test (the `in` operator) on character lists. -/
def containsSeq : List Char → List Char → Bool
  | [], pat => pat.isEmpty
  | a :: as, pat => startsWithSeq (a :: as) pat || containsSeq as pat

/-- Python substring test (the `in` operator) on strings. -/
def pyContains (hay pat : String) : Bool := containsSeq hay.data pat.data

/-- Python str.lower (ASCII fragment). -/
def pyLower (s : String) : String := s.map Char.toLower

/-- Python str.upper (ASCII fragment). -/
def pyUpper (s : String) : String := s.map Char.toUpper

/-- Python int() applied to a float/rational: truncation toward zero. -/
def pyTrunc (q : ℚ) : ℤ := if q < 0 then -((-q).floor) else q.floor

/-- One step of Python str.replace: if the text starts with the (nonempty)
pattern, rewrite it, else keep one character.  Fuel-driven to stay total. -/
def replaceSeq (pat rep : List Char) : ℕ → List Char → List Char
  | 0, cs => cs
  | _ + 1, [] => []
  | fuel + 1, c :: cs =>
    if startsWithSeq (c :: cs) pat && !pat.isEmpty then
      rep ++ replaceSeq pat rep fuel ((c :: cs).drop pat.length)
    else
      c :: replaceSeq pat rep fuel cs

/-- Python str.replace(pat, rep) for a nonempty pattern. -/
def pyReplace (s pat rep : String) : String :=
  (replaceSeq pat.data rep.data s.length s.data).asString

/-- Digit string to natural number accumulator. -/
def digitsToNat : List Char → ℕ → ℕ
  | [], acc => acc
  | c :: cs, acc => digitsToNat cs (acc * 10 + (c.toNat - 48))

/-- Python int(str): optional surrounding whitespace, optional sign, digits. -/
def parsePyInt (s : String) : Option ℤ :=
  let cs := (s.trim).data
  let (neg, ds) :=
    match cs with
    | '-' :: rest => (true, rest)
    | '+' :: rest => (false, rest)
    | _ => (false, cs)
  if ds.isEmpty || !ds.all Char.isDigit then none
  else
    let n : ℤ := digitsToNat ds 0
    some (if neg then -n else n)

/-- Python float(str), restricted to plain decimal literals
(optional sign, digits, optional fractional part). -/
def parsePyFloat (s : String) : Option ℚ :=
  let cs := (s.trim).data
  let (neg, body) :=
    match cs with
    | '-' :: rest => (true, rest)
    | '+' :: rest => (false, rest)
    | _ => (false, cs)
  let (ip, rest) := body.span Char.isDigit
  let frac : Option (List Char) :=
    match rest with
    | [] => some []
    | '.' :: fs => if fs.all Char.isDigit then some fs else none
    | _ => none
  match frac with
  | none => none
  | some fs =>
    if ip.isEmpty && fs.isEmpty then none
    else
      let num : ℚ := digitsToNat ip 0
      let fr : ℚ := (digitsToNat fs 0 : ℚ) / ((10 : ℚ) ^ fs.length)
      let v := num + fr
      some (if neg then -v else v)

/-- Decimal rendering of a nonnegative rational, used for the encoder's
brightness attribute (an approximation of Python float formatting). -/
def fracDigits : ℚ → ℕ → List Char
  | _, 0 => []
  | q, fuel + 1 =>
    if q = 0 then []
    else
      let q10 := q * 10
      let d := q10.floor
      Char.ofNat (48 + d.toNat) :: fracDigits (q10 - d) fuel

/-- Approximate Python str() of a float value. -/
def qRepr (q : ℚ) : String :=
  let sign := if q < 0 then "-" else ""
  let a := |q|
  let ip := a.floor
  let fr := a - ip
  let ds := fracDigits fr 17
  sign ++ toString ip.toNat ++ "." ++ (if ds.isEmpty then "0" else ds.asString)

/-! ## HTML escaping (Python html.escape / html.unescape fragment) -/

/-- Python html.escape with quote=True. -/
def htmlEscapeChar (c : Char) : String :=
  if c = '&' then "&amp;"
  else if c = '<' then "&lt;"
  else if c = '>' then "&gt;"
  else if c = '"' then "&quot;"
  else if c = aposChar then "&#x27;"
  else String.singleton c

/-- Python html.escape with quote=True. -/
def htmlEscape (s : String) : String := String.join (s.data.map htmlEscapeChar)

/-- Python html.unescape, restricted to the five entities the escaper emits;
other ampersand sequences pass through unchanged. -/
def unescapeSeq : ℕ → List Char → List Char
  | 0, cs => cs
  | _ + 1, [] => []
  | fuel + 1, c :: cs =>
    if startsWithSeq (c :: cs) "&amp;".data then
      '&' :: unescapeSeq fuel ((c :: cs).drop 5)
    else if startsWithSeq (c :: cs) "&lt;".data then
      '<' :: unescapeSeq fuel ((c :: cs).drop 4)
    else if startsWithSeq (c :: cs) "&gt;".data then
      '>' :: unescapeSeq fuel ((c :: cs).drop 4)
    else if startsWithSeq (c :: cs) "&quot;".data then
      '"' :: unescapeSeq fuel ((c :: cs).drop 6)
    else if startsWithSeq (c :: cs) "&#x27;".data then
      aposChar :: unescapeSeq fuel ((c :: cs).drop 6)
    else
      c :: unescapeSeq fuel cs

/-- Python html.unescape on the escaper's output alphabet. -/
def htmlUnescape (s : String) : String := (unescapeSeq s.length s.data).asString

/-- Last-wins association lookup, the semantics of building a Python dict
from a pair list and indexing it. -/
def lookupLast {α β : Type} (p : α → Bool) : List (α × β) → Option β
  | [] => none
  | (k, v) :: rest =>
    match lookupLast p rest with
    | some r => some r
    | none => if p k then some v else none

/-! ## Run styles (the current_style dictionary of HTMLRunParser) -/

/-- The style dictionary threaded through decoding, from
src/src/pptx_processor.py HTMLRunParser.__init__. -/
structure RunStyle where
  bold : Bool
  italic : Bool
  underline : Bool
  strike : Bool
  font_size : Option ℚ
  color_rgb : Option String
  theme_color : Option ℤ
  brightness : Option ℚ
deriving DecidableEq

/-- The initial style: everything off, no size, no color. -/
def defaultStyle : RunStyle :=
  { bold := false, italic := false, underline := false, strike := false,
    font_size := none, color_rgb := none, theme_color := none, brightness := none }

/-- A decoded run: raw data text plus the style captured at that point. -/
structure ParsedRun where
  text : String
  style : RunStyle
deriving DecidableEq

/-! ## HTML tokenization (the html.parser.HTMLParser layer)

A faithful model of the tokenizer events the source's HTMLRunParser receives
for markup made of plain tags, double-quoted attributes and text
(convert_charrefs is on, so entities in data arrive decoded). -/

/-- Tokenizer events delivered to the run parser. -/
inductive HTok where
  | startTag (tag : String) (attrs : List (String × String))
  | startEndTag (tag : String) (attrs : List (String × String))
  | endTag (tag : String)
  | dataTok (s : String)
deriving DecidableEq

/-- Characters allowed inside a tag name. -/
def isTagNameChar (c : Char) : Bool :=
  c.isAlpha || c.isDigit || c = '-' || c = '.' || c = ':' || c = '_'

/-- Characters allowed inside an attribute name. -/
def isAttrNameChar (c : Char) : Bool :=
  !(c.isWhitespace || c = '=' || c = '>' || c = '/')

/-- Attribute list scanner: consumes up to the closing angle bracket and
reports whether the tag was self-closing.  Returns none when the input ends
before the tag is closed (the tokenizer then buffers, emitting nothing). -/
def lexAttrs : ℕ → List Char → Option (List (String × String) × Bool × List Char)
  | 0, _ => none
  | _ + 1, [] => none
  | fuel + 1, c :: cs =>
    if c.isWhitespace then lexAttrs fuel cs
    else if c = '>' then some ([], false, cs)
    else if c = '/' then
      match cs with
      | '>' :: rest => some ([], true, rest)
      | _ => lexAttrs fuel cs
    else
      let (name, rest1) := (c :: cs).span isAttrNameChar
      match rest1 with
      | '=' :: '"' :: rest2 =>
        let (val, rest3) := rest2.span (fun ch => ch ≠ '"')
        match rest3 with
        | _ :: rest4 =>
          match lexAttrs fuel rest4 with
          | some (attrs, sc, rest5) =>
            some ((name.asString, val.asString) :: attrs, sc, rest5)
          | none => none
        | [] => none
      | _ =>
        match lexAttrs fuel rest1 with
        | some (attrs, sc, rest5) => some ((name.asString, "") :: attrs, sc, rest5)
        | none => none

/-- The tokenizer main loop. -/
def tokenizeAux : ℕ → List Char → List HTok
  | 0, _ => []
  | _ + 1, [] => []
  | fuel + 1, '<' :: rest =>
    match rest with
    | '/' :: rest2 =>
      let (name, rest3) := rest2.span isTagNameChar
      let (_, rest4) := rest3.span (fun ch => ch ≠ '>')
      (match rest4 with
       | _ :: rest5 => HTok.endTag (pyLower name.asString) :: tokenizeAux fuel rest5
       | [] => [])
    | c :: rest2 =>
      if c.isAlpha then
        let (name, rest3) := (c :: rest2).span isTagNameChar
        match lexAttrs (rest3.length + 1) rest3 with
        | some (attrs, selfClosing, rest4) =>
          (if selfClosing then HTok.startEndTag (pyLower name.asString) attrs
           else HTok.startTag (pyLower name.asString) attrs) :: tokenizeAux fuel rest4
        | none => []
      else
        HTok.dataTok "<" :: tokenizeAux fuel rest
    | [] => []
  | fuel + 1, c :: cs =>
    let (txt, rest) := (c :: cs).span (fun ch => ch ≠ '<')
    HTok.dataTok (htmlUnescape txt.asString) :: tokenizeAux fuel rest

/-- Tokenize a markup string into parser events. -/
def tokenize (s : String) : List HTok := tokenizeAux (s.length + 1) s.data

/-! ## The run parser (HTMLRunParser of src/src/pptx_processor.py) -/

/-- Parser state: current style, the style stack and the runs emitted. -/
structure PState where
  current_style : RunStyle
  style_stack : List RunStyle
  runs : List ParsedRun
deriving DecidableEq

/-- The freshly constructed parser. -/
def initPState : PState := { current_style := defaultStyle, style_stack := [], runs := [] }

/-- dict(attrs).get(key, "") with Python last-wins duplicate handling. -/
def attrsGet (attrs : List (String × String)) (key : String) : String :=
  (lookupLast (fun k => k == key) attrs).getD ""

/-- Style effect of the c tag value (HTMLRunParser.handle_starttag). -/
def applyColorVal (st : RunStyle) (val : String) : RunStyle :=
  if startsWithSeq val.data "#".data then
    { st with color_rgb := some (pyUpper (pyReplace val "#" "")) }
  else if startsWithSeq val.data "T".data then
    let parts := (val.drop 1).splitOn ":"
    match parsePyInt (parts.headD "") with
    | none => st
    | some n =>
      let st1 := { st with theme_color := some n }
      if parts.length > 1 then
        match parsePyFloat (parts.getD 1 "") with
        | some b => { st1 with brightness := some b }
        | none => st1
      else st1
  else st

/-- HTMLRunParser.handle_starttag: push a copy of the current style, then
apply the tag effect (br emits a soft-return run instead). -/
def handleStartTag (st : PState) (tag : String) (attrs : List (String × String)) : PState :=
  let st := { st with style_stack := st.current_style :: st.style_stack }
  if tag = "br" then
    { st with runs := st.runs ++ [{ text := "\x0b", style := st.current_style }] }
  else if tag = "b" ∨ tag = "strong" then
    { st with current_style := { st.current_style with bold := true } }
  else if tag = "i" ∨ tag = "em" then
    { st with current_style := { st.current_style with italic := true } }
  else if tag = "u" then
    { st with current_style := { st.current_style with underline := true } }
  else if tag = "s" ∨ tag = "strike" ∨ tag = "del" then
    { st with current_style := { st.current_style with strike := true } }
  else if tag = "c" then
    { st with current_style := applyColorVal st.current_style (attrsGet attrs "v") }
  else if tag = "sz" then
    match parsePyFloat (attrsGet attrs "v") with
    | some v => { st with current_style := { st.current_style with font_size := some v } }
    | none => st
  else st

/-- HTMLRunParser.handle_startendtag: only br has an effect (the default
start+end dispatch is overridden, so no style push happens here). -/
def handleStartEndTag (st : PState) (tag : String) : PState :=
  if tag = "br" then
    { st with runs := st.runs ++ [{ text := "\x0b", style := st.current_style }] }
  else st

/-- HTMLRunParser.handle_endtag: br is ignored; otherwise pop the style
stack when it is nonempty, whatever the tag name. -/
def handleEndTag (st : PState) (tag : String) : PState :=
  if tag = "br" then st
  else
    match st.style_stack with
    | [] => st
    | s :: rest => { st with current_style := s, style_stack := rest }

/-- HTMLRunParser.handle_data: nonempty data becomes one run. -/
def handleData (st : PState) (data : String) : PState :=
  if data = "" then st
  else { st with runs := st.runs ++ [{ text := data, style := st.current_style }] }

/-- Dispatch one tokenizer event. -/
def feedTok (st : PState) : HTok → PState
  | HTok.startTag tag attrs => handleStartTag st tag attrs
  | HTok.startEndTag tag _ => handleStartEndTag st tag
  | HTok.endTag tag => handleEndTag st tag
  | HTok.dataTok s => handleData st s

/-- Decode a markup string into styled runs: feed every token through the
parser and read off the collected runs. -/
def decodeHtml (s : String) : List ParsedRun :=
  ((tokenize s).foldl feedTok initPState).runs

/-! ## Document runs and the encoder (_run_to_html) -/

/-- The color of a document run: absent, an RGB value, or a theme color with
an optional brightness, as read through run.font.color. -/
inductive ColorInfo where
  | noColor
  | rgbColor (hex : String)
  | themeColor (id : ℤ) (brightness : Option ℚ)
deriving DecidableEq

/-- A document run as the processor reads and writes it: text plus the font
attributes touched by the pipeline.  The boolean fields model Python
truthiness of the tri-state pptx values. -/
structure SrcRun where
  text : String
  bold : Bool
  italic : Bool
  underline : Bool
  strike : Bool
  size : Option ℚ
  color : ColorInfo
deriving DecidableEq

/-- A plain run with the given text and no styling. -/
def plainRun (t : String) : SrcRun :=
  { text := t, bold := false, italic := false, underline := false,
    strike := false, size := none, color := ColorInfo.noColor }

/-- PPTXProcessor._run_to_html: escape the text, rewrite line breaks to br
tags, and wrap in style tags (bold, italic, underline, strike innermost,
then color, then size outermost). -/
def runToHtml (r : SrcRun) : String :=
  let text := htmlEscape r.text
  if text = "" then ""
  else
    let text := pyReplace (pyReplace (pyReplace (pyReplace text "_x000B_" "<br>")
      "\x0b" "<br>") "\n" "<br>") "\r" "<br>"
    let cTag : Option String :=
      match r.color with
      | ColorInfo.noColor => none
      | ColorInfo.rgbColor hex => some ("<c v=\"#" ++ hex ++ "\">")
      | ColorInfo.themeColor id b =>
        let tVal := "T" ++ toString id ++
          (match b with
           | some q => if q ≠ 0 then ":" ++ qRepr q else ""
           | none => "")
        some ("<c v=\"" ++ tVal ++ "\">")
    let szTag : Option String :=
      match r.size with
      | some v => if v ≠ 0 then some ("<sz v=\"" ++ toString (pyTrunc v) ++ "\">") else none
      | none => none
    let result := text
    let result := if r.bold then "<b>" ++ result ++ "</b>" else result
    let result := if r.italic then "<i>" ++ result ++ "</i>" else result
    let result := if r.underline then "<u>" ++ result ++ "</u>" else result
    let result := if r.strike then "<s>" ++ result ++ "</s>" else result
    let result := match cTag with
      | some t => t ++ result ++ "</c>"
      | none => result
    match szTag with
    | some t => t ++ result ++ "</sz>"
    | none => result

/-- PPTXProcessor._paragraph_to_html: concatenate the runs. -/
def paragraphToHtml (runs : List SrcRun) : String :=
  String.join (runs.map runToHtml)

/-! ## Reconstruction (_reconstruct_paragraph and _apply_style) -/

/-- Is a string a valid six-digit hex color (what RGBColor.from_string
accepts without raising)? -/
def isValidRgb (s : String) : Bool :=
  s.length = 6 && s.data.all (fun c => c.isDigit || ('A' ≤ c && c ≤ 'F') || ('a' ≤ c && c ≤ 'f'))

/-- PPTXProcessor._apply_style on a freshly added run: the decoded style is
written onto it, with Python truthiness guards (a zero or missing font size
is not applied; an empty or invalid RGB string is dropped; a theme id of
zero is falsy and skipped; setting a theme color overrides a previously set
RGB color). -/
def applyStyle (style : RunStyle) (text : String) : SrcRun :=
  let size : Option ℚ :=
    match style.font_size with
    | some v => if v ≠ 0 then some v else none
    | none => none
  let colorAfterRgb : ColorInfo :=
    match style.color_rgb with
    | some s => if s ≠ "" && isValidRgb s then ColorInfo.rgbColor s else ColorInfo.noColor
    | none => ColorInfo.noColor
  let color : ColorInfo :=
    match style.theme_color with
    | some n => if n ≠ 0 then ColorInfo.themeColor n style.brightness else colorAfterRgb
    | none => colorAfterRgb
  { text := text, bold := style.bold, italic := style.italic,
    underline := style.underline, strike := style.strike,
    size := size, color := color }

/-- PPTXProcessor._reconstruct_paragraph: an empty translation leaves the
paragraph untouched; decoding that yields no runs leaves it untouched;
otherwise the old runs are discarded and rebuilt from the decoded runs (the
run text is unescaped a second time before being written). -/
def reconstructParagraph (oldRuns : List SrcRun) (htmlText : String) : List SrcRun :=
  if htmlText = "" then oldRuns
  else
    let parsed := decodeHtml htmlText
    if parsed = [] then oldRuns
    else parsed.map (fun pr => applyStyle pr.style (htmlUnescape pr.text))

/-! ## Configuration (src/src/config.py)

The translation section exposes exactly these settings (each property of the
Config class, with its default).  There is no batch-size setting. -/

/-- The validated configuration values the pipeline reads. -/
structure Config where
  source_language : String := "Japanese"
  target_language : String := "English"
  expansion_ratio : ℚ := 1
  glossary_path : String := "glossary.json"
  max_parallel_requests : ℕ := 5
  presentation_body_prompt : String := ""
  constrained_text_prompt : String := ""
deriving DecidableEq

/-! ## Character budget (_calculate_max_chars) -/

/-- PPTXProcessor._calculate_max_chars: language matching is
case-insensitive substring matching; the resulting float product is
truncated with int(). -/
def calculateMaxChars (sourceLang targetLang : String) (expansionRatio : ℚ)
    (originalLength : ℕ) : ℤ :=
  let sLang := pyLower sourceLang
  let tLang := pyLower targetLang
  let ratio : ℚ :=
    if pyContains sLang "japanese" && pyContains tLang "english" then expansionRatio
    else if pyContains sLang "english" && pyContains tLang "japanese" then
      (if expansionRatio ≠ 0 then 1 / expansionRatio else 1)
    else 1
  pyTrunc ((originalLength : ℚ) * ratio)

/-- The budget rule as the claim words it: rounding instead of truncation.
Kept separate so it can be compared against the source function. -/
def claimRoundMaxChars (sourceLang targetLang : String) (expansionRatio : ℚ)
    (originalLength : ℕ) : ℤ :=
  let sLang := pyLower sourceLang
  let tLang := pyLower targetLang
  let ratio : ℚ :=
    if pyContains sLang "japanese" && pyContains tLang "english" then expansionRatio
    else if pyContains sLang "english" && pyContains tLang "japanese" then
      (if expansionRatio ≠ 0 then 1 / expansionRatio else 1)
    else 1
  round ((originalLength : ℚ) * ratio)

/-! ## Task collection and batching (_process_slide, _process_batch) -/

/-- Structural context of a collected paragraph. -/
inductive TaskContext where
  | standard
  | constrained
deriving DecidableEq

/-- A translation task: the paragraph's runs plus its context. -/
structure TransTask where
  runs : List SrcRun
  context : TaskContext
deriving DecidableEq

/-- An item of the payload handed to the translator: batch-local id, encoded
markup, character budget. -/
structure BatchItem where
  id : ℕ
  text : String
  limit : ℤ
deriving DecidableEq

/-- One step of the batch-preparation loop of _process_batch: encode the
paragraph, skip it when the markup is blank after trimming, otherwise emit
the item with the enumeration index as id and the character budget as
limit. -/
def buildFn (cfg : Config) (p : ℕ × TransTask) : Option BatchItem :=
  let htmlText := paragraphToHtml p.2.runs
  if htmlText.trim = "" then none
  else
    let rawLen := (p.2.runs.map (fun r => r.text.length)).sum
    some { id := p.1, text := htmlText,
           limit := calculateMaxChars cfg.source_language cfg.target_language
                      cfg.expansion_ratio rawLen }

/-- The batch-preparation loop of _process_batch over the enumerated task
list. -/
def buildBatchItems (cfg : Config) (tasks : List TransTask) : List BatchItem :=
  tasks.enum.filterMap (buildFn cfg)

/-- The gateway payloads issued by one _process_batch call: nothing when
every item was skipped, otherwise a single call carrying all items. -/
def batchCalls (cfg : Config) (tasks : List TransTask) : List (List BatchItem) :=
  let items := buildBatchItems cfg tasks
  if items = [] then [] else [items]

/-- The gateway payloads issued for one slide (_process_slide): the tasks
are split into the standard and the constrained list and each nonempty list
is handed to _process_batch once. -/
def slideCalls (cfg : Config) (tasks : List TransTask) : List (List BatchItem) :=
  let stdTasks := tasks.filter (fun t => decide (t.context = TaskContext.standard))
  let conTasks := tasks.filter (fun t => decide (t.context = TaskContext.constrained))
  (if stdTasks ≠ [] then batchCalls cfg stdTasks else []) ++
  (if conTasks ≠ [] then batchCalls cfg conTasks else [])

/-! ## Batch reconciliation (_process_batch, application phase)

A response item is modelled by the pair of values item.get("id") and
item.get("translation") extracted from the parsed JSON object (absent keys
give none).  The outcome per batch item is: none when the paragraph is
skipped with a diagnostic (count mismatch, or id absent from the response
map), or some v when _reconstruct_paragraph is invoked with translation
value v. -/

/-- One parsed response object, projected to the two fields the
reconciliation reads. -/
structure RespItem where
  id : Option ℤ
  translation : Option String
deriving DecidableEq

/-- Look an id up in the Python dict built from the response items
(duplicate keys: the later item wins). -/
def respLookup (i : ℕ) (resp : List RespItem) : Option (Option String) :=
  lookupLast (fun k => k == some (i : ℤ)) (resp.map (fun r => (r.id, r.translation)))

/-- The application phase of _process_batch: a count mismatch between the
sent items and the response skips the whole batch; otherwise each item is
looked up by id, skipped when absent, and reconstructed with the found
translation value when present. -/
def processBatchApply (items : List BatchItem) (resp : List RespItem) :
    List (Option (Option String)) :=
  if resp.length ≠ items.length then items.map (fun _ => none)
  else items.map (fun it => respLookup it.id resp)

/-! ## JSON wire format (translator.py translate_batch)

The request payload is json.dumps of a list of objects and the response is
json.loads plus list extraction.  The model covers the JSON fragment the
gateway traffic uses: null, booleans, integers, strings with the common
escapes, arrays and objects. -/

/-- A JSON value (integer-valued numbers only). -/
inductive JVal where
  | jnull
  | jbool (b : Bool)
  | jint (n : ℤ)
  | jstr (s : String)
  | jarr (xs : List JVal)
  | jobj (kvs : List (String × JVal))

/-- String escaping of json.dumps with ensure_ascii=False. -/
def jsonEscapeChar (c : Char) : String :=
  if c = '"' then "\\\""
  else if c = '\\' then "\\\\"
  else if c = '\n' then "\\n"
  else if c = '\t' then "\\t"
  else if c = '\r' then "\\r"
  else if c = Char.ofNat 8 then "\\b"
  else if c = Char.ofNat 12 then "\\f"
  else String.singleton c

/-- String escaping of json.dumps with ensure_ascii=False. -/
def jsonEscape (s : String) : String := String.join (s.data.map jsonEscapeChar)

mutual

/-- json.dumps with the default separators. -/
def dumps : JVal → String
  | JVal.jnull => "null"
  | JVal.jbool b => if b then "true" else "false"
  | JVal.jint n => toString n
  | JVal.jstr s => "\"" ++ jsonEscape s ++ "\""
  | JVal.jarr xs => "[" ++ String.intercalate ", " (dumpsList xs) ++ "]"
  | JVal.jobj kvs => "\x7b" ++ String.intercalate ", " (dumpsObj kvs) ++ "\x7d"

/-- Serialize the elements of a JSON array. -/
def dumpsList : List JVal → List String
  | [] => []
  | x :: xs => dumps x :: dumpsList xs

/-- Serialize the members of a JSON object. -/
def dumpsObj : List (String × JVal) → List String
  | [] => []
  | (k, v) :: kvs => ("\"" ++ jsonEscape k ++ "\": " ++ dumps v) :: dumpsObj kvs

end

/-- The prompt_items list built by translate_batch: one object per item
with the id, text and max_chars fields, in that order. -/
def promptItems (items : List BatchItem) : List JVal :=
  items.map (fun it => JVal.jobj
    [("id", JVal.jint (it.id : ℤ)), ("text", JVal.jstr it.text),
     ("max_chars", JVal.jint it.limit)])

/-- The user message content of a batch request:
json.dumps(prompt_items, ensure_ascii=False). -/
def batchUserContent (items : List BatchItem) : String :=
  dumps (JVal.jarr (promptItems items))

/-! ### json.loads (fragment) -/

/-- Skip JSON whitespace. -/
def skipWs : List Char → List Char
  | c :: cs => if c = ' ' ∨ c = '\t' ∨ c = '\n' ∨ c = '\r' then skipWs cs else c :: cs
  | [] => []

/-- Parse the body of a JSON string after the opening quote. -/
def parseJStr : ℕ → List Char → Option (String × List Char)
  | 0, _ => none
  | _ + 1, [] => none
  | fuel + 1, c :: cs =>
    if c = '"' then some ("", cs)
    else if c = '\\' then
      match cs with
      | e :: rest =>
        let dec : Option Char :=
          if e = '"' then some '"'
          else if e = '\\' then some '\\'
          else if e = '/' then some '/'
          else if e = 'n' then some '\n'
          else if e = 't' then some '\t'
          else if e = 'r' then some '\r'
          else if e = 'b' then some (Char.ofNat 8)
          else if e = 'f' then some (Char.ofNat 12)
          else none
        match dec with
        | some ch =>
          match parseJStr fuel rest with
          | some (s, rem) => some (String.singleton ch ++ s, rem)
          | none => none
        | none => none
      | [] => none
    else
      match parseJStr fuel cs with
      | some (s, rem) => some (String.singleton c ++ s, rem)
      | none => none

mutual

/-- Parse one JSON value. -/
def parseJVal : ℕ → List Char → Option (JVal × List Char)
  | 0, _ => none
  | fuel + 1, cs =>
    match skipWs cs with
    | [] => none
    | c :: rest =>
      if c = '"' then
        match parseJStr (rest.length + 1) rest with
        | some (s, rem) => some (JVal.jstr s, rem)
        | none => none
      else if c = '[' then
        match skipWs rest with
        | ']' :: rem => some (JVal.jarr [], rem)
        | other => match parseJItems fuel other with
          | some (xs, rem) => some (JVal.jarr xs, rem)
          | none => none
      else if c = Char.ofNat 123 then
        match skipWs rest with
        | rem =>
          if rem.headD ' ' = Char.ofNat 125 then some (JVal.jobj [], rem.tail)
          else match parseJMembers fuel rem with
            | some (kvs, rem2) => some (JVal.jobj kvs, rem2)
            | none => none
      else if c = 't' then
        if startsWithSeq (c :: rest) "true".data then
          some (JVal.jbool true, (c :: rest).drop 4)
        else none
      else if c = 'f' then
        if startsWithSeq (c :: rest) "false".data then
          some (JVal.jbool false, (c :: rest).drop 5)
        else none
      else if c = 'n' then
        if startsWithSeq (c :: rest) "null".data then
          some (JVal.jnull, (c :: rest).drop 4)
        else none
      else if c = '-' then
        let (ds, rem) := rest.span Char.isDigit
        if ds.isEmpty then none
        else some (JVal.jint (-(digitsToNat ds 0 : ℤ)), rem)
      else if c.isDigit then
        let (ds, rem) := (c :: rest).span Char.isDigit
        some (JVal.jint (digitsToNat ds 0 : ℤ), rem)
      else none

/-- Parse the comma-separated items of a nonempty JSON array body and the
closing bracket. -/
def parseJItems : ℕ → List Char → Option (List JVal × List Char)
  | 0, _ => none
  | fuel + 1, cs =>
    match parseJVal fuel cs with
    | none => none
    | some (v, rem) =>
      match skipWs rem with
      | ',' :: rem2 =>
        match parseJItems fuel rem2 with
        | some (xs, rem3) => some (v :: xs, rem3)
        | none => none
      | ']' :: rem2 => some ([v], rem2)
      | _ => none

/-- Parse the comma-separated members of a nonempty JSON object body and
the closing brace. -/
def parseJMembers : ℕ → List Char → Option (List (String × JVal) × List Char)
  | 0, _ => none
  | fuel + 1, cs =>
    match skipWs cs with
    | '"' :: rest =>
      match parseJStr (rest.length + 1) rest with
      | none => none
      | some (k, rem) =>
        match skipWs rem with
        | ':' :: rem2 =>
          match parseJVal fuel rem2 with
          | none => none
          | some (v, rem3) =>
            match skipWs rem3 with
            | ',' :: rem4 =>
              match parseJMembers fuel rem4 with
              | some (kvs, rem5) => some ((k, v) :: kvs, rem5)
              | none => none
            | rem4 =>
              if rem4.headD ' ' = Char.ofNat 125 then some ([(k, v)], rem4.tail)
              else none
        | _ => none
    | _ => none

end

/-- json.loads: parse one document and require only whitespace after it. -/
def jsonLoads (s : String) : Option JVal :=
  match parseJVal (s.length + 1) s.data with
  | some (v, rem) => if skipWs rem = [] then some v else none
  | none => none

/-- Is a JSON value an array? -/
def isJArr : JVal → Bool
  | JVal.jarr _ => true
  | _ => false

/-- The response handling of translate_batch: a JSON list is returned as
is; from a JSON object the first value that is a list is returned; any
other document, or content that fails to parse, yields the empty list. -/
def translateBatchParse (content : String) : List JVal :=
  match jsonLoads content with
  | some (JVal.jarr l) => l
  | some (JVal.jobj kvs) =>
    match (kvs.map (fun p => p.2)).find? isJArr with
    | some (JVal.jarr l) => l
    | _ => []
  | some _ => []
  | none => []

/-- The line-oriented response parsing the claim describes: split into
lines, keep the lines containing the ::: delimiter whose first part parses
as an integer id, and take the trimmed remainder as the translation.
Modelled from the claim for comparison with the source. -/
def claimLineParse (content : String) : List (ℤ × String) :=
  (content.splitOn "\n").filterMap (fun line =>
    if pyContains line ":::" then
      match (line.splitOn ":::").headD "" |> parsePyInt with
      | some i =>
        let restParts := (line.splitOn ":::").tail
        some (i, (String.intercalate ":::" restParts).trim)
      | none => none
    else none)

/-! ## Layout reflow engine (src/src/layout_adjuster.py)

Geometry lives in EMUs (integers in the document model, floats once the
heuristics multiply them; both modelled as exact rationals where division
occurs).  Runs carry only the fields the engine reads: text and font size
in points. -/

/-- A run as the reflow engine sees it. -/
structure FitRun where
  text : String
  size : Option ℚ
deriving DecidableEq

/-- A paragraph of the reflow model. -/
abbrev FitPara := List FitRun

/-- A text frame of the reflow model. -/
abbrev TFrame := List FitPara

/-- Per-character width factor: wide for codepoints above 255, narrow
otherwise (LayoutAdjuster._estimate_paragraph_linear_width). -/
def charFactor (c : Char) : ℚ := if c.toNat > 255 then 1 else 11/20

/-- Linear width of one run in EMUs: every character except a literal
newline contributes fontSize * 12700 * factor, with an 18pt fallback when
the run has no explicit size. -/
def runLinearWidth (r : FitRun) : ℚ :=
  let fs := r.size.getD 18
  ((r.text.data.filter (fun c => c ≠ '\n')).map (fun c => fs * 12700 * charFactor c)).sum

/-- LayoutAdjuster._estimate_paragraph_linear_width. -/
def paragraphLinearWidth (p : FitPara) : ℚ :=
  (p.map runLinearWidth).sum

/-- LayoutAdjuster._estimate_total_linear_width. -/
def totalLinearWidth (tf : TFrame) : ℚ :=
  (tf.map paragraphLinearWidth).sum

/-- LayoutAdjuster._get_max_font_size: the largest explicit (truthy) font
size in the frame, 0 when there is none. -/
def maxFontSize (tf : TFrame) : ℚ :=
  tf.foldl (fun m p => p.foldl (fun m r =>
    match r.size with
    | some v => if v ≠ 0 && v > m then v else m
    | none => m) m) 0

/-- The line height estimate of _apply_manual_fit: the representative font
size (18 when the frame has none) times 12700 EMU per point times 1.2. -/
def lineHeightEmu (tf : TFrame) : ℚ :=
  let m := maxFontSize tf
  let fs := if m = 0 then 18 else m
  fs * 12700 * (6/5)

/-- Estimated wrapped line count: per paragraph, the ceiling of linear
width over 95 percent of the available width, with one line for an empty
paragraph. -/
def estimatedLines (tf : TFrame) (availableWidth : ℚ) : ℤ :=
  let eff := availableWidth * (19/20)
  (tf.map (fun p =>
    let pw := paragraphLinearWidth p
    if pw = 0 then 1 else ⌈pw / eff⌉)).sum

/-- Estimated total text height in EMUs. -/
def estimatedTotalHeight (tf : TFrame) (availableWidth : ℚ) : ℚ :=
  (estimatedLines tf availableWidth : ℚ) * lineHeightEmu tf

/-- A run after the fitting pass; scaled sizes are reals because the scale
factor involves a square root. -/
structure FitRunR where
  text : String
  size : Option ℝ

/-- A frame left untouched, injected into the result type. -/
noncomputable def embedRun (r : FitRun) : FitRunR :=
  { text := r.text, size := r.size.map (fun q => (q : ℝ)) }

/-- A frame left untouched, injected into the result type. -/
noncomputable def embedFrame (tf : TFrame) : List (List FitRunR) :=
  tf.map (fun p => p.map embedRun)

/-- LayoutAdjuster._scale_font_size on one run: multiply the explicit size
(18 when absent) by the ratio and floor the result at 6. -/
noncomputable def scaleRunR (k : ℝ) (r : FitRun) : FitRunR :=
  match r.size with
  | some v =>
    let ns : ℝ := (v : ℝ) * k
    { text := r.text, size := some (if ns < 6 then 6 else ns) }
  | none =>
    let ns : ℝ := 18 * k
    { text := r.text, size := some (if ns < 6 then 6 else ns) }

/-- LayoutAdjuster._scale_font_size. -/
noncomputable def scaleFontSize (tf : TFrame) (k : ℝ) : List (List FitRunR) :=
  tf.map (fun p => p.map (scaleRunR k))

/-- The effective available height: a missing or nonpositive height is
treated as practically infinite. -/
def effAvailableHeight (availableHeight : ℚ) : ℚ :=
  if availableHeight ≤ 0 then 99999999 else availableHeight

/-- The scale factor solved by _apply_manual_fit when shrinking:
sqrt(availableHeight / estimatedHeight) times the 0.95 safety buffer. -/
noncomputable def fitScaleFactor (tf : TFrame) (availableWidth availableHeight : ℚ) : ℝ :=
  Real.sqrt ((effAvailableHeight availableHeight : ℝ) /
    (estimatedTotalHeight tf availableWidth : ℝ)) * (19/20)

/-- LayoutAdjuster._apply_manual_fit: bail out on nonpositive width or a
frame with zero linear text width; otherwise estimate the wrapped height
and, when it exceeds the available height, scale every font size by
sqrt(available/estimated) * 0.95; otherwise change nothing.  (The source
first computes a one-shot line estimate that it immediately overwrites
with the per-paragraph estimate; only the latter is observable.) -/
noncomputable def applyManualFit (tf : TFrame) (availableWidth availableHeight : ℚ) :
    List (List FitRunR) :=
  if availableWidth ≤ 0 then embedFrame tf
  else
    let h2 := effAvailableHeight availableHeight
    if totalLinearWidth tf = 0 then embedFrame tf
    else
      let est := estimatedTotalHeight tf availableWidth
      if est > h2 then
        scaleFontSize tf (fitScaleFactor tf availableWidth availableHeight)
      else embedFrame tf

/-! ## Box widening (_adjust_text_box) -/

/-- A shape's bounding box on the slide, in EMUs. -/
structure ShapeBox where
  left : ℤ
  top : ℤ
  width : ℤ
  height : ℤ
deriving DecidableEq

/-- One step of the obstruction scan of _adjust_text_box: lower the
candidate right edge to this sibling's left edge when it starts at or
beyond the current right edge and overlaps the vertical band (touching
counts: the test is a negated strict-disjointness check). -/
def scanStep (s : ShapeBox) (mr : ℤ) (o : ShapeBox) : ℤ :=
  if o.left ≥ s.left + s.width then
    if ¬ (o.top + o.height < s.top ∨ o.top > s.top + s.height) then
      if o.left < mr then o.left else mr
    else mr
  else mr

/-- The obstruction scan of _adjust_text_box: fold the step over the
sibling shapes, starting from the slide's right edge. -/
def maxRightScan (s : ShapeBox) (others : List ShapeBox) (slideWidth : ℤ) : ℤ :=
  others.foldl (scanStep s) slideWidth

/-- The new width _adjust_text_box assigns: candidate right edge minus the
shape's left edge minus the fixed 91440 EMU margin, taken only when it
beats the current width. -/
def adjustTextBoxWidth (s : ShapeBox) (others : List ShapeBox) (slideWidth : ℤ) : ℤ :=
  let availableWidth := maxRightScan s others slideWidth - s.left - 91440
  if availableWidth > s.width then availableWidth else s.width

/-- The closed-interval overlap test the source implements, as a
predicate. -/
def closedOverlap (s o : ShapeBox) : Bool :=
  decide (s.top ≤ o.top + o.height) && decide (o.top ≤ s.top + s.height)

/-- The widening rule stated as the amended claim words it: minimum left
edge over the rightward shapes overlapping the vertical band under the
closed-interval test, or the slide edge; widen only when strictly wider. -/
def specWidthClosed (s : ShapeBox) (others : List ShapeBox) (slideWidth : ℤ) : ℤ :=
  let cands := (others.filter (fun o =>
    decide (o.left ≥ s.left + s.width) && closedOverlap s o)).map (fun o => o.left)
  let newRight := cands.foldr min slideWidth
  let avail := newRight - s.left - 91440
  if avail > s.width then avail else s.width

/-- The open-interval overlap test the claim words demand, as a
predicate. -/
def openOverlap (s o : ShapeBox) : Bool :=
  decide (s.top < o.top + o.height) && decide (o.top < s.top + s.height)

/-- The widening rule exactly as the claim words it, with the
open-interval overlap test.  Modelled from the claim for comparison with
the source. -/
def claimWidthOpen (s : ShapeBox) (others : List ShapeBox) (slideWidth : ℤ) : ℤ :=
  let cands := (others.filter (fun o =>
    decide (o.left ≥ s.left + s.width) && openOverlap s o)).map (fun o => o.left)
  let newRight := cands.foldr min slideWidth
  let avail := newRight - s.left - 91440
  if avail > s.width then avail else s.width

/-! ## Claim-side comparison definitions -/

/-- The reflow width estimate applied to document runs (the estimator of
section 4.6 over text and font size). -/
def srcRunsWidth (rs : List SrcRun) : ℚ :=
  paragraphLinearWidth (rs.map (fun r => { text := r.text, size := r.size }))

/-- The reconstruction-time scaling ratio the claim describes: original
estimated width over translated estimated width, capped at one.  Modelled
from the claim for comparison with the source. -/
def claimConstrainedRatio (oldRuns newRuns : List SrcRun) : ℚ :=
  min 1 (srcRunsWidth oldRuns / srcRunsWidth newRuns)

/-- The per-run font size the claim mandates for constrained
reconstruction: the decoded size times the ratio, floored at 6pt.
Modelled from the claim for comparison with the source. -/
def claimScaledSize (ratio sz : ℚ) : ℚ := max 6 (sz * ratio)

/-- The font size _apply_style actually writes for a decoded style: the
decoded absolute size when it is truthy, nothing otherwise. -/
def truthySize (fs : Option ℚ) : Option ℚ :=
  match fs with
  | some v => if v ≠ 0 then some v else none
  | none => none

/-- The explicit textual shape of one serialized batch object, used to
state what json.dumps produces. -/
def dumpBatchItemStr (it : BatchItem) : String :=
  "\x7b\"id\": " ++ toString (it.id : ℤ) ++ ", " ++ "\"text\": \"" ++
    jsonEscape it.text ++ "\"" ++ ", " ++ "\"max_chars\": " ++ toString it.limit ++ "\x7d"

/-! # Theorems -/

/-! ## Shared helper lemmas -/

/-- The substituted available height is always positive. -/
theorem effAvailableHeight_pos (h : ℚ) : 0 < effAvailableHeight h := by
  unfold effAvailableHeight
  split
  · norm_num
  · exact not_le.mp (by assumption)

/-- For a positive height no substitution happens. -/
theorem effAvailableHeight_of_pos {h : ℚ} (hp : 0 < h) : effAvailableHeight h = h :=
  if_neg (not_le.mpr hp)

/-- Whenever the estimated height exceeds the (substituted) available
height, the solved scale factor is strictly below one. -/
theorem fitScaleFactor_lt_one (tf : TFrame) (w h : ℚ)
    (hgt : effAvailableHeight h < estimatedTotalHeight tf w) :
    fitScaleFactor tf w h < 1 := by
  have hpos : 0 < effAvailableHeight h := effAvailableHeight_pos h
  have hb : (0 : ℝ) < (estimatedTotalHeight tf w : ℝ) := by
    exact_mod_cast lt_trans hpos hgt
  have hratio : (effAvailableHeight h : ℝ) / (estimatedTotalHeight tf w : ℝ) < 1 := by
    rw [div_lt_one hb]
    exact_mod_cast hgt
  have h0 : (0 : ℝ) ≤ (effAvailableHeight h : ℝ) / (estimatedTotalHeight tf w : ℝ) := by
    positivity
  have hs : Real.sqrt ((effAvailableHeight h : ℝ) / (estimatedTotalHeight tf w : ℝ)) < 1 := by
    have hq := Real.sqrt_lt_sqrt h0 hratio
    rwa [Real.sqrt_one] at hq
  unfold fitScaleFactor
  nlinarith [Real.sqrt_nonneg ((effAvailableHeight h : ℝ) / (estimatedTotalHeight tf w : ℝ))]

/-- The solved scale factor is never negative. -/
theorem fitScaleFactor_nonneg (tf : TFrame) (w h : ℚ) :
    0 ≤ fitScaleFactor tf w h := by
  unfold fitScaleFactor
  have := Real.sqrt_nonneg ((effAvailableHeight h : ℝ) / (estimatedTotalHeight tf w : ℝ))
  nlinarith

/-- C1 counterexample: a batch of two items whose response contains only
id 0 hits the count-mismatch validation, so the whole batch is skipped:
item 0 is NOT translated, contradicting the claim that only the affected
paragraph is skipped while id 0 is still applied. -/
theorem c1_counterexample :
    processBatchApply
      [{ id := 0, text := "a", limit := 1 }, { id := 1, text := "b", limit := 1 }]
      [{ id := some 0, translation := some "T0" }] = [none, none] ∧
    processBatchApply
      [{ id := 0, text := "a", limit := 1 }, { id := 1, text := "b", limit := 1 }]
      [{ id := some 0, translation := some "T0" }] ≠ [some (some "T0"), none] := by
  refine ⟨by with_unfolding_all decide, by with_unfolding_all decide⟩

/-- One serialized batch object in closed form. -/
theorem dumps_item (it : BatchItem) :
    dumps (JVal.jobj [("id", JVal.jint (it.id : ℤ)), ("text", JVal.jstr it.text),
      ("max_chars", JVal.jint it.limit)]) = dumpBatchItemStr it := by
  have e1 : jsonEscape "id" = "id" := by with_unfolding_all rfl
  have e2 : jsonEscape "text" = "text" := by with_unfolding_all rfl
  have e3 : jsonEscape "max_chars" = "max_chars" := by with_unfolding_all rfl
  simp only [dumps, dumpsObj, dumpsList, String.intercalate, String.intercalate.go,
    dumpBatchItemStr, e1, e2, e3]
  simp [← String.append_assoc]

/-- C2 (amended): the user payload of a batch request is the JSON
serialization of one object per item with the fields id, text and
max_chars, in that order -- not a line protocol -- and the response is
parsed as a JSON document: a top-level list is the result, an object
contributes its first list value, and anything unparseable yields the
empty result. -/
theorem c2_theorem (items : List BatchItem) :
    batchUserContent items =
      "[" ++ String.intercalate ", " (items.map dumpBatchItemStr) ++ "]" ∧
    translateBatchParse "[\x7b\"id\": 0, \"translation\": \"X\"\x7d]" =
      [JVal.jobj [("id", JVal.jint 0), ("translation", JVal.jstr "X")]] ∧
    translateBatchParse
        "\x7b\"results\": [\x7b\"id\": 1, \"translation\": \"Y\"\x7d]\x7d" =
      [JVal.jobj [("id", JVal.jint 1), ("translation", JVal.jstr "Y")]] ∧
    translateBatchParse "plain text, not json" = [] := by
  refine ⟨?_, by with_unfolding_all rfl, by with_unfolding_all rfl,
    by with_unfolding_all rfl⟩
  have hlist : ∀ l : List BatchItem,
      dumpsList (l.map (fun it => JVal.jobj
        [("id", JVal.jint (it.id : ℤ)), ("text", JVal.jstr it.text),
         ("max_chars", JVal.jint it.limit)])) = l.map dumpBatchItemStr := by
    intro l
    induction l with
    | nil => rfl
    | cons x xs ih => simp only [List.map_cons, dumpsList, dumps_item, ih]
  unfold batchUserContent promptItems
  simp only [dumps, hlist]

/-- C3 counterexample: encoding the bold run with leading and trailing
spaces produces plain b tags with the whitespace kept literally inside --
no space-preservation tokens -- and decoding that markup yields exactly one
run carrying the whole text, not three runs. -/
theorem c3_counterexample :
    runToHtml { plainRun " Hello " with bold := true } = "<b> Hello </b>" ∧
    (decodeHtml "<b> Hello </b>").map (fun r => (r.text, r.style.bold)) =
      [(" Hello ", true)] ∧
    (decodeHtml "<b> Hello </b>").length = 1 := by
  refine ⟨by with_unfolding_all decide, by with_unfolding_all decide, by with_unfolding_all decide⟩

/-- The 6pt floor written as a maximum. -/
theorem ite_lt_six_eq_max (x : ℝ) : (if x < 6 then (6 : ℝ) else x) = max 6 x := by
  rcases le_or_lt 6 x with hx | hx
  · rw [if_neg (not_lt.mpr hx), max_eq_right hx]
  · rw [if_pos hx, max_eq_left hx.le]

/-- One scaled run in closed form: nominal 18pt default, multiplied by the
ratio, floored at 6pt. -/
theorem scaleRunR_eq (k : ℝ) (r : FitRun) :
    scaleRunR k r =
      { text := r.text, size := some (max 6 (((r.size.getD 18 : ℚ) : ℝ) * k)) } := by
  cases hr : r.size with
  | some v => simp [scaleRunR, hr, ite_lt_six_eq_max]
  | none => simp [scaleRunR, hr, ite_lt_six_eq_max]

/-- C5 (amended): for a container with positive width and height and a
frame with nonzero estimated linear width (the source skips frames with no
measurable characters before estimating), the fit step scales every run by
k = sqrt(availableHeight / estimatedHeight) * 0.95 with an 18pt nominal
size for runs with no explicit size and a 6pt floor whenever the estimated
height strictly exceeds the available height, and changes nothing
otherwise. -/
theorem c5_theorem (tf : TFrame) (w h : ℚ) (hw : 0 < w) (hh : 0 < h)
    (hnz : totalLinearWidth tf ≠ 0) :
    (h < estimatedTotalHeight tf w →
      applyManualFit tf w h = tf.map (fun p => p.map (fun r =>
        { text := r.text,
          size := some (max 6 (((r.size.getD 18 : ℚ) : ℝ) *
            (Real.sqrt ((h : ℝ) / (estimatedTotalHeight tf w : ℝ)) * (19/20)))) }))) ∧
    (estimatedTotalHeight tf w ≤ h → applyManualFit tf w h = embedFrame tf) := by
  have hEff : effAvailableHeight h = h := effAvailableHeight_of_pos hh
  constructor
  · intro hgt
    have hfk : fitScaleFactor tf w h =
        Real.sqrt ((h : ℝ) / (estimatedTotalHeight tf w : ℝ)) * (19/20) := by
      unfold fitScaleFactor
      rw [hEff]
    simp only [applyManualFit]
    rw [if_neg (not_le.mpr hw), if_neg hnz, hEff, if_pos hgt, hfk]
    unfold scaleFontSize
    exact congrArg (fun f => tf.map (fun p => p.map f))
      (funext fun r => scaleRunR_eq _ r)
  · intro hle
    simp only [applyManualFit]
    rw [if_neg (not_le.mpr hw), if_neg hnz, hEff, if_neg (not_lt.mpr hle)]

set_option maxRecDepth 2000 in
/-- C5 witness: the shrink branch of the amended theorem applied to a
one-run frame that overflows its box. -/
theorem c5_witness :
    ((100000 : ℚ) < estimatedTotalHeight [[{ text := "AAAA", size := some (20 : ℚ) }]]
      914400) ∧
    applyManualFit [[{ text := "AAAA", size := some (20 : ℚ) }]] 914400 100000 =
      ([[{ text := "AAAA", size := some (20 : ℚ) }]] : TFrame).map (fun p => p.map (fun r =>
        ({ text := r.text,
           size := some (max 6 (((r.size.getD 18 : ℚ) : ℝ) *
             (Real.sqrt (((100000 : ℚ) : ℝ) /
               (estimatedTotalHeight [[{ text := "AAAA", size := some (20 : ℚ) }]]
                 914400 : ℝ)) * (19/20)))) } : FitRunR))) :=
  ⟨by with_unfolding_all decide,
    (c5_theorem [[{ text := "AAAA", size := some (20 : ℚ) }]] 914400 100000
      (by norm_num) (by norm_num) (by with_unfolding_all decide)).1
      (by with_unfolding_all decide)⟩

/-- C10 (confirmed): whenever the fit pass rescales a frame, the applied
factor is strictly below one, every resulting run size is at least 6pt, and
a run whose explicit size was at least 6pt never gets larger. -/
theorem c10_theorem (tf : TFrame) (w h : ℚ) (hw : ¬ w ≤ 0)
    (hnz : totalLinearWidth tf ≠ 0)
    (hgt : effAvailableHeight h < estimatedTotalHeight tf w) :
    fitScaleFactor tf w h < 1 ∧
    applyManualFit tf w h = scaleFontSize tf (fitScaleFactor tf w h) ∧
    ∀ r : FitRun, ∃ ns : ℝ, (scaleRunR (fitScaleFactor tf w h) r).size = some ns ∧
      6 ≤ ns ∧ ∀ s : ℚ, r.size = some s → 6 ≤ (s : ℝ) → ns ≤ (s : ℝ) := by
  have hk1 := fitScaleFactor_lt_one tf w h hgt
  refine ⟨hk1, ?_, ?_⟩
  · simp only [applyManualFit]
    rw [if_neg hw, if_neg hnz, if_pos hgt]
  · intro r
    refine ⟨max 6 (((r.size.getD 18 : ℚ) : ℝ) * fitScaleFactor tf w h),
      by rw [scaleRunR_eq], le_max_left _ _, ?_⟩
    intro s hs hs6
    rw [hs]
    have hs0 : (0 : ℝ) ≤ (s : ℝ) := le_trans (by norm_num) hs6
    refine max_le hs6 ?_
    simpa using mul_le_of_le_one_right hs0 hk1.le

set_option maxRecDepth 2000 in
/-- C10 witness: the theorem applied to the overflowing one-run frame. -/
theorem c10_witness :
    (¬ ((914400 : ℚ) ≤ 0)) ∧
    (effAvailableHeight 100000 <
      estimatedTotalHeight [[{ text := "BBBB", size := some (20 : ℚ) }]] 914400) ∧
    fitScaleFactor [[{ text := "BBBB", size := some (20 : ℚ) }]] 914400 100000 < 1 :=
  ⟨by norm_num, by with_unfolding_all decide,
    (c10_theorem [[{ text := "BBBB", size := some (20 : ℚ) }]] 914400 100000
      (by norm_num) (by with_unfolding_all decide) (by with_unfolding_all decide)).1⟩

/-- C6 counterexample: for raw length 1 and expansion ratio 1.7 the code
truncates int(1 * 1.7) to 1, while the claimed rounding rule gives 2. -/
theorem c6_counterexample :
    calculateMaxChars "Japanese" "English" (17/10) 1 = 1 ∧
    claimRoundMaxChars "Japanese" "English" (17/10) 1 = 2 ∧
    (1 : ℤ) ≠ 2 := by
  refine ⟨by with_unfolding_all decide, by with_unfolding_all decide, by with_unfolding_all decide⟩

/-- Rat.floor agrees with the floor of the FloorRing instance. -/
theorem ratFloor_eq_intFloor (q : ℚ) : q.floor = ⌊q⌋ := by
  rw [Rat.floor_def' q, Rat.floor_def]

/-- Python int() truncation agrees with the floor on nonnegative values. -/
theorem pyTrunc_of_nonneg {q : ℚ} (h : 0 ≤ q) : pyTrunc q = ⌊q⌋ := by
  unfold pyTrunc
  rw [if_neg (not_lt.mpr h), ratFloor_eq_intFloor]

/-- C6 (amended): the budget is int(rawLength * ratio) -- truncation, not
rounding -- with the ratio selected by case-insensitive substring matching:
the expansion ratio for Japanese to English, its reciprocal for English to
Japanese (when nonzero), and 1 otherwise; the two concrete examples of the
claim hold (17 and 58). -/
theorem c6_theorem (r : ℚ) (n : ℕ) (hr : 0 ≤ r) :
    calculateMaxChars "Japanese" "English" r n = ⌊(n : ℚ) * r⌋ ∧
    (r ≠ 0 → calculateMaxChars "English" "Japanese" r n = ⌊(n : ℚ) * (1 / r)⌋) ∧
    calculateMaxChars "German" "French" r n = n ∧
    calculateMaxChars "Japanese" "English" (17/10) 10 = 17 ∧
    calculateMaxChars "English" "Japanese" (17/10) 100 = 58 := by
  have hje : (pyContains (pyLower "Japanese") "japanese"
      && pyContains (pyLower "English") "english") = true := by
    with_unfolding_all decide
  have hejNot : ¬ ((pyContains (pyLower "English") "japanese"
      && pyContains (pyLower "Japanese") "english") = true) := by
    with_unfolding_all decide
  have hej : (pyContains (pyLower "English") "english"
      && pyContains (pyLower "Japanese") "japanese") = true := by
    with_unfolding_all decide
  have hgfNot1 : ¬ ((pyContains (pyLower "German") "japanese"
      && pyContains (pyLower "French") "english") = true) := by
    with_unfolding_all decide
  have hgfNot2 : ¬ ((pyContains (pyLower "German") "english"
      && pyContains (pyLower "French") "japanese") = true) := by
    with_unfolding_all decide
  refine ⟨?_, ?_, ?_, by with_unfolding_all decide, by with_unfolding_all decide⟩
  · simp only [calculateMaxChars]
    rw [if_pos hje, pyTrunc_of_nonneg (mul_nonneg (Nat.cast_nonneg n) hr)]
  · intro hr0
    simp only [calculateMaxChars]
    rw [if_neg hejNot, if_pos hej, if_pos hr0,
      pyTrunc_of_nonneg (mul_nonneg (Nat.cast_nonneg n) (by positivity))]
  · simp only [calculateMaxChars]
    rw [if_neg hgfNot1, if_neg hgfNot2, mul_one,
      pyTrunc_of_nonneg (Nat.cast_nonneg n), Int.floor_natCast]

/-- C6 witness: the amended theorem applied at ratio 1.7 and length 3. -/
theorem c6_witness :
    0 ≤ (17/10 : ℚ) ∧ calculateMaxChars "Japanese" "English" (17/10) 3 = ⌊(3 : ℚ) * (17/10)⌋ :=
  ⟨by norm_num, (c6_theorem (17/10) 3 (by norm_num)).1⟩

/-- C7 counterexample: in the markup b, text, close-i, text the close tag
has no matching open tag, yet it is not a no-op: it pops the style pushed
by the b tag, so the trailing text loses bold (a no-op close would have
left it bold). -/
theorem c7_counterexample :
    (decodeHtml "<b>x</i>y").map (fun r => (r.text, r.style.bold)) =
      [("x", true), ("y", false)] ∧
    (decodeHtml "<b>x</i>y").map (fun r => (r.text, r.style.bold)) ≠
      [("x", true), ("y", true)] := by
  refine ⟨by with_unfolding_all decide, by with_unfolding_all decide⟩

/-- C1 (amended): reconciliation keeps the output aligned with the batch;
when the response count differs from the sent count the whole batch is
skipped (every item left untranslated); when the counts match, each item is
resolved by looking its id up in the response map independently of response
order, and only items whose id is absent are skipped. -/
theorem c1_theorem (items : List BatchItem) (resp : List RespItem) :
    (processBatchApply items resp).length = items.length ∧
    (resp.length ≠ items.length → ∀ o ∈ processBatchApply items resp, o = none) ∧
    (resp.length = items.length → ∀ k : ℕ,
      (processBatchApply items resp)[k]? =
        items[k]?.map (fun it => respLookup it.id resp)) := by
  by_cases hlen : resp.length = items.length
  · refine ⟨by simp [processBatchApply, hlen], ?_, ?_⟩
    · intro hne
      exact absurd hlen hne
    · intro _ k
      simp [processBatchApply, hlen, List.getElem?_map]
  · refine ⟨by simp [processBatchApply, hlen], ?_, ?_⟩
    · intro _ o ho
      have ho2 : o ∈ items.map (fun _ => (none : Option (Option String))) := by
        simpa [processBatchApply, hlen] using ho
      rcases List.mem_map.mp ho2 with ⟨a, _, h⟩
      exact h.symm
    · intro h
      exact absurd h hlen

/-- C1 witness: the amended theorem applied to a two-item batch whose
response arrives in reverse id order. -/
theorem c1_witness :
    (([{ id := some 1, translation := some "T1" },
       { id := some 0, translation := some "T0" }] : List RespItem).length =
      ([{ id := 0, text := "a", limit := 1 },
        { id := 1, text := "b", limit := 1 }] : List BatchItem).length) ∧
    (processBatchApply
      [{ id := 0, text := "a", limit := 1 }, { id := 1, text := "b", limit := 1 }]
      [{ id := some 1, translation := some "T1" },
       { id := some 0, translation := some "T0" }])[0]? =
      (([{ id := 0, text := "a", limit := 1 },
         { id := 1, text := "b", limit := 1 }] : List BatchItem)[0]?).map
        (fun it => respLookup it.id
          [{ id := some 1, translation := some "T1" },
           { id := some 0, translation := some "T0" }]) :=
  ⟨rfl, (c1_theorem
    [{ id := 0, text := "a", limit := 1 }, { id := 1, text := "b", limit := 1 }]
    [{ id := some 1, translation := some "T1" },
     { id := some 0, translation := some "T0" }]).2.2 rfl 0⟩

/-- C2 counterexample: the user payload for a one-item batch is a JSON
array, not a ::: line; it contains no ::: delimiter at all; and a response
in the claimed line format parses to nothing (json.loads rejects it), while
the claimed line-oriented parser would have extracted id 0. -/
theorem c2_counterexample :
    batchUserContent [{ id := 0, text := "Hi", limit := 5 }] =
      "[\x7b\"id\": 0, \"text\": \"Hi\", \"max_chars\": 5\x7d]" ∧
    pyContains (batchUserContent [{ id := 0, text := "Hi", limit := 5 }]) ":::" = false ∧
    batchUserContent [{ id := 0, text := "Hi", limit := 5 }] ≠ "0 ::: 5 ::: Hi" ∧
    translateBatchParse "0 ::: T0" = [] ∧
    claimLineParse "0 ::: T0" = [(0, "T0")] := by
  refine ⟨by with_unfolding_all decide, by with_unfolding_all decide,
    by with_unfolding_all decide, by with_unfolding_all rfl, by with_unfolding_all decide⟩

/-- Characters that the encoder passes through untouched: not subject to
escaping and not line-break characters. -/
def c3CleanChar (c : Char) : Bool :=
  !(c == '&' || c == '<' || c == '>' || c == '"' || c == aposChar ||
    c == Char.ofNat 11 || c == '\n' || c == '\r' || c == '_')

/-- A clean character escapes to itself. -/
theorem htmlEscapeChar_of_clean {c : Char} (h : c3CleanChar c = true) :
    htmlEscapeChar c = String.singleton c := by
  simp only [c3CleanChar, Bool.not_eq_true', Bool.or_eq_false_iff, beq_eq_false_iff_ne,
    ne_eq] at h
  obtain ⟨⟨⟨⟨⟨⟨⟨⟨h1, h2⟩, h3⟩, h4⟩, h5⟩, h6⟩, h7⟩, h8⟩, h9⟩ := h
  unfold htmlEscapeChar
  rw [if_neg h1, if_neg h2, if_neg h3, if_neg h4, if_neg h5]

/-- Escaping a clean string is the identity. -/
theorem htmlEscape_of_clean (s : String) (h : ∀ c ∈ s.data, c3CleanChar c = true) :
    htmlEscape s = s := by
  apply String.ext
  unfold htmlEscape
  rw [String.data_join, List.map_map]
  have aux : ∀ cs : List Char, (∀ c ∈ cs, c3CleanChar c = true) →
      (cs.map (String.data ∘ htmlEscapeChar)).flatten = cs := by
    intro cs hcs
    induction cs with
    | nil => simp
    | cons c rest ih =>
      have hc := hcs c (List.mem_cons_self c rest)
      have hrest : ∀ x ∈ rest, c3CleanChar x = true := fun x hx =>
        hcs x (List.mem_cons_of_mem c hx)
      simp only [List.map_cons, List.flatten_cons, Function.comp_apply,
        htmlEscapeChar_of_clean hc, ih hrest]
      rfl
  exact aux s.data h

/-- Replacement is the identity when the pattern head never occurs. -/
theorem replaceSeq_of_not_mem (p0 : Char) (ps rep : List Char) (fuel : ℕ)
    (cs : List Char) (h : ∀ c ∈ cs, c ≠ p0) :
    replaceSeq (p0 :: ps) rep fuel cs = cs := by
  induction fuel generalizing cs with
  | zero => rfl
  | succ n ih =>
    cases cs with
    | nil => rfl
    | cons c rest =>
      have hc : (c == p0) = false := by
        simpa using h c (List.mem_cons_self c rest)
      have hrest : ∀ x ∈ rest, x ≠ p0 := fun x hx => h x (List.mem_cons_of_mem c hx)
      simp only [replaceSeq, startsWithSeq, hc, Bool.false_and, Bool.and_self,
        Bool.false_eq_true, if_false, ih rest hrest]

/-- Replacement at the string level for a clean string with one of the
encoder patterns. -/
theorem pyReplace_of_clean (s : String) (p0 : Char) (ps : List Char) (pat rep : String)
    (hpat : pat.data = p0 :: ps) (h : ∀ c ∈ s.data, c ≠ p0) :
    pyReplace s pat rep = s := by
  apply String.ext
  unfold pyReplace
  rw [hpat, replaceSeq_of_not_mem p0 ps rep.data s.length s.data h]
  rfl

/-- C3 (amended): the encoder emits no space-preservation tokens: a bold
run of clean text (no escapable or break characters) encodes to plain b
tags with the text -- leading and trailing whitespace included -- kept
literally between them, and decoding the markup for the bold run
" Hello " yields exactly one run carrying the whole spaced text. -/
theorem c3_theorem (t : String) (hne : t ≠ "")
    (hclean : ∀ c ∈ t.data, c3CleanChar c = true) :
    runToHtml { plainRun t with bold := true } = "<b>" ++ t ++ "</b>" ∧
    decodeHtml "<b> Hello </b>" =
      [{ text := " Hello ", style := { defaultStyle with bold := true } }] := by
  refine ⟨?_, by with_unfolding_all decide⟩
  have comp : ∀ c ∈ t.data, ¬c = '&' ∧ ¬c = '<' ∧ ¬c = '>' ∧ ¬c = '"' ∧
      ¬c = aposChar ∧ ¬c = Char.ofNat 11 ∧ ¬c = '\n' ∧ ¬c = '\r' ∧ ¬c = '_' := by
    intro c hc
    have h := hclean c hc
    simp only [c3CleanChar, Bool.not_eq_true', Bool.or_eq_false_iff,
      beq_eq_false_iff_ne, ne_eq] at h
    obtain ⟨⟨⟨⟨⟨⟨⟨⟨h1, h2⟩, h3⟩, h4⟩, h5⟩, h6⟩, h7⟩, h8⟩, h9⟩ := h
    exact ⟨h1, h2, h3, h4, h5, h6, h7, h8, h9⟩
  have hE : htmlEscape t = t := htmlEscape_of_clean t hclean
  have hR1 : pyReplace t "_x000B_" "<br>" = t :=
    pyReplace_of_clean t '_' "x000B_".data _ _ rfl
      (fun c hc => (comp c hc).2.2.2.2.2.2.2.2)
  have hR2 : pyReplace t "\x0b" "<br>" = t :=
    pyReplace_of_clean t (Char.ofNat 11) [] _ _ rfl
      (fun c hc => (comp c hc).2.2.2.2.2.1)
  have hR3 : pyReplace t "\n" "<br>" = t :=
    pyReplace_of_clean t '\n' [] _ _ rfl
      (fun c hc => (comp c hc).2.2.2.2.2.2.1)
  have hR4 : pyReplace t "\r" "<br>" = t :=
    pyReplace_of_clean t '\r' [] _ _ rfl
      (fun c hc => (comp c hc).2.2.2.2.2.2.2.1)
  simp only [runToHtml, plainRun, hE]
  rw [if_neg hne]
  simp only [hR1, hR2, hR3, hR4]
  simp

/-- C3 witness: the amended theorem applied to the claim text with its
leading and trailing space. -/
theorem c3_witness :
    (" Hello " ≠ "") ∧
    runToHtml { plainRun " Hello " with bold := true } = "<b>" ++ " Hello " ++ "</b>" :=
  ⟨by decide, (c3_theorem (" Hello ") (by decide) (by decide)).1⟩

/-- C4 counterexample: reconstructing a constrained paragraph whose
translation doubled the estimated width applies no font scaling at all --
the rebuilt run keeps the decoded absolute 10pt size -- while the claimed
rule (ratio one half, 6pt floor) would demand 6pt. -/
theorem c4_counterexample :
    reconstructParagraph [{ plainRun "WW" with size := some 10 }]
      "<sz v=\"10\">WWWW</sz>" = [{ plainRun "WWWW" with size := some 10 }] ∧
    claimScaledSize
      (claimConstrainedRatio [{ plainRun "WW" with size := some 10 }]
        (reconstructParagraph [{ plainRun "WW" with size := some 10 }]
          "<sz v=\"10\">WWWW</sz>"))
      10 = 6 ∧
    (10 : ℚ) ≠ 6 := by
  refine ⟨by with_unfolding_all decide, by with_unfolding_all decide,
    by with_unfolding_all decide⟩

/-- The Bool filter condition of the closed-overlap scan, unpacked into
the Props the source tests. -/
theorem scanCond_iff (s o : ShapeBox) :
    ((decide (o.left ≥ s.left + s.width) && closedOverlap s o) = true) ↔
      (o.left ≥ s.left + s.width ∧
        ¬ (o.top + o.height < s.top ∨ o.top > s.top + s.height)) := by
  simp only [closedOverlap, Bool.and_eq_true, decide_eq_true_eq]
  omega

/-- The scan step in min form when the sibling qualifies. -/
theorem scanStep_of_cond {s o : ShapeBox} (mr : ℤ)
    (hA : o.left ≥ s.left + s.width)
    (hB : ¬ (o.top + o.height < s.top ∨ o.top > s.top + s.height)) :
    scanStep s mr o = min o.left mr := by
  unfold scanStep
  rw [if_pos hA, if_pos hB]
  rcases lt_or_ge o.left mr with h | h
  · rw [if_pos h, min_eq_left h.le]
  · rw [if_neg (not_lt.mpr h), min_eq_right h]

/-- The scan step is the identity when the sibling does not qualify. -/
theorem scanStep_of_not_cond {s o : ShapeBox} (mr : ℤ)
    (h : ¬ (o.left ≥ s.left + s.width ∧
      ¬ (o.top + o.height < s.top ∨ o.top > s.top + s.height))) :
    scanStep s mr o = mr := by
  unfold scanStep
  by_cases hA : o.left ≥ s.left + s.width
  · rw [if_pos hA, if_neg (fun hB => h ⟨hA, hB⟩)]
  · rw [if_neg hA]

/-- Folding min over a list commutes with lowering the seed. -/
theorem foldr_min_swap (L : List ℤ) (a b : ℤ) :
    L.foldr min (min a b) = min a (L.foldr min b) := by
  induction L with
  | nil => rfl
  | cons x xs ih => simp only [List.foldr_cons, ih, min_left_comm]

/-- The left fold of the scan equals the minimum left edge over the
qualifying siblings, seeded with the slide edge. -/
theorem maxRightScan_eq (s : ShapeBox) (others : List ShapeBox) (init : ℤ) :
    others.foldl (scanStep s) init =
      (((others.filter (fun o =>
        decide (o.left ≥ s.left + s.width) && closedOverlap s o)).map
          (fun o => o.left)).foldr min init) := by
  induction others generalizing init with
  | nil => rfl
  | cons o os ih =>
    rw [List.foldl_cons, ih]
    by_cases hco : (decide (o.left ≥ s.left + s.width) && closedOverlap s o) = true
    · obtain ⟨hA, hB⟩ := (scanCond_iff s o).mp hco
      rw [List.filter_cons, if_pos hco, List.map_cons, List.foldr_cons,
        scanStep_of_cond init hA hB, foldr_min_swap]
    · rw [List.filter_cons, if_neg hco,
        scanStep_of_not_cond init (fun hAB => hco ((scanCond_iff s o).mpr hAB))]

/-- C8 (amended): the widening rule matches the claim except that the
vertical overlap test is closed-interval (a sibling whose edge exactly
touches the band counts as an obstruction): the new width is the minimum
qualifying left edge (or the slide edge) minus the fixed margin when that
beats the current width, and the width is never decreased. -/
theorem c8_theorem (s : ShapeBox) (others : List ShapeBox) (slideWidth : ℤ) :
    adjustTextBoxWidth s others slideWidth = specWidthClosed s others slideWidth ∧
    s.width ≤ adjustTextBoxWidth s others slideWidth := by
  constructor
  · unfold adjustTextBoxWidth specWidthClosed maxRightScan
    rw [maxRightScan_eq]
  · unfold adjustTextBoxWidth
    rcases lt_or_ge s.width (maxRightScan s others slideWidth - s.left - 91440) with h | h
    · rw [if_pos h]
      exact h.le
    · rw [if_neg (not_lt.mpr h)]

/-- The batch builder assigns the enumeration index as the item id. -/
theorem buildFn_id (cfg : Config) (p : ℕ × TransTask) (b : BatchItem)
    (h : buildFn cfg p = some b) : b.id = p.1 := by
  simp only [buildFn] at h
  by_cases hc : (paragraphToHtml p.2.runs).trim = ""
  · rw [if_pos hc] at h
    exact absurd h (by simp)
  · rw [if_neg hc] at h
    have hb := Option.some.inj h
    rw [← hb]

/-- Item ids produced from an enumeration starting at k are at least k and
strictly increasing. -/
theorem enumFrom_filterMap_ids (cfg : Config) (ts : List TransTask) : ∀ k : ℕ,
    (∀ it ∈ (List.enumFrom k ts).filterMap (buildFn cfg), k ≤ it.id) ∧
    List.Chain' (fun a b => a < b)
      (((List.enumFrom k ts).filterMap (buildFn cfg)).map (fun it => it.id)) := by
  induction ts with
  | nil => intro k; exact ⟨by simp, by simp⟩
  | cons t rest ih =>
    intro k
    have step : List.enumFrom k (t :: rest) = (k, t) :: List.enumFrom (k + 1) rest := rfl
    rw [step, List.filterMap_cons]
    obtain ⟨ihMem, ihChain⟩ := ih (k + 1)
    cases hb : buildFn cfg (k, t) with
    | none =>
      refine ⟨fun it hit => le_trans (Nat.le_succ k) (ihMem it hit), ihChain⟩
    | some b =>
      have hid : b.id = k := buildFn_id cfg (k, t) b hb
      constructor
      · intro it hit
        rcases List.mem_cons.mp hit with rfl | hmem
        · exact le_of_eq hid.symm
        · exact le_trans (Nat.le_succ k) (ihMem it hmem)
      · rw [List.map_cons]
        apply List.chain'_cons'.mpr
        refine ⟨?_, ihChain⟩
        intro y hy
        have hex : ∃ it ∈ (List.enumFrom (k + 1) rest).filterMap (buildFn cfg),
            it.id = y := by
          rcases hh : ((List.enumFrom (k + 1) rest).filterMap (buildFn cfg)) with _ | ⟨z, zs⟩
          · rw [hh] at hy
            simp at hy
          · rw [hh] at hy
            simp at hy
            exact ⟨z, by simp [hh], hy⟩
        obtain ⟨it, hmem, rfl⟩ := hex
        have := ihMem it hmem
        rw [hid]
        omega

/-- A _process_batch invocation issues no call for an empty item list and
exactly the one whole-list call otherwise. -/
theorem mem_batchCalls {cfg : Config} {ts : List TransTask} {call : List BatchItem}
    (h : call ∈ batchCalls cfg ts) :
    call = buildBatchItems cfg ts ∧ buildBatchItems cfg ts ≠ [] := by
  unfold batchCalls at h
  by_cases hb : buildBatchItems cfg ts = []
  · rw [if_pos hb] at h
    exact absurd h (List.not_mem_nil call)
  · rw [if_neg hb] at h
    rw [List.mem_singleton.mp h]
    exact ⟨rfl, hb⟩

/-- The nonempty guard around _process_batch is redundant. -/
theorem batchCalls_if_eq (cfg : Config) (ts : List TransTask) :
    (if ts ≠ [] then batchCalls cfg ts else []) = batchCalls cfg ts := by
  by_cases h : ts = []
  · subst h
    simp only [ne_eq, not_true_eq_false, if_false]
    rfl
  · rw [if_pos h]

/-- C9 (amended): per slide the tasks are partitioned into the standard and
the constrained list and each nonempty list is sent as one single whole
gateway call -- at most two calls, never empty, with strictly increasing
batch-local ids -- with no batch-size chunking (the configuration exposes
no batch-size value). -/
theorem c9_theorem (cfg : Config) (tasks : List TransTask) :
    slideCalls cfg tasks =
      batchCalls cfg (tasks.filter (fun t => decide (t.context = TaskContext.standard))) ++
        batchCalls cfg
          (tasks.filter (fun t => decide (t.context = TaskContext.constrained))) ∧
    (slideCalls cfg tasks).length ≤ 2 ∧
    ∀ call ∈ slideCalls cfg tasks, call ≠ [] ∧
      List.Chain' (fun a b => a < b) (call.map (fun it => it.id)) := by
  have hsplit : slideCalls cfg tasks =
      batchCalls cfg (tasks.filter (fun t => decide (t.context = TaskContext.standard))) ++
        batchCalls cfg
          (tasks.filter (fun t => decide (t.context = TaskContext.constrained))) := by
    simp only [slideCalls]
    rw [batchCalls_if_eq, batchCalls_if_eq]
  have hlen : ∀ ts : List TransTask, (batchCalls cfg ts).length ≤ 1 := by
    intro ts
    unfold batchCalls
    by_cases hb : buildBatchItems cfg ts = []
    · rw [if_pos hb]
      simp
    · rw [if_neg hb]
      simp
  have hcall : ∀ (ts : List TransTask) (call : List BatchItem),
      call ∈ batchCalls cfg ts → call ≠ [] ∧
        List.Chain' (fun a b => a < b) (call.map (fun it => it.id)) := by
    intro ts call hmem
    obtain ⟨rfl, hne⟩ := mem_batchCalls hmem
    refine ⟨hne, ?_⟩
    have := (enumFrom_filterMap_ids cfg ts 0).2
    exact this
  refine ⟨hsplit, ?_, ?_⟩
  · rw [hsplit, List.length_append]
    have h1 := hlen (tasks.filter (fun t => decide (t.context = TaskContext.standard)))
    have h2 := hlen (tasks.filter (fun t => decide (t.context = TaskContext.constrained)))
    omega
  · intro call hmem
    rw [hsplit] at hmem
    rcases List.mem_append.mp hmem with h | h
    · exact hcall _ call h
    · exact hcall _ call h

/-- C9 witness: the per-call clause applied to a one-task slide. -/
theorem c9_witness :
    ([{ id := 0, text := "a", limit := 1 }] ∈
      slideCalls {} [{ runs := [plainRun "a"], context := TaskContext.standard }]) ∧
    (([{ id := 0, text := "a", limit := 1 }] : List BatchItem) ≠ [] ∧
      List.Chain' (fun a b => a < b)
        (([{ id := 0, text := "a", limit := 1 }] : List BatchItem).map (fun it => it.id))) :=
  ⟨by with_unfolding_all decide,
    (c9_theorem {} [{ runs := [plainRun "a"], context := TaskContext.standard }]).2.2
      [{ id := 0, text := "a", limit := 1 }] (by with_unfolding_all decide)⟩

/-- C9 counterexample: a slide with seven standard paragraphs produces
exactly one gateway call carrying all seven items (ids 0 through 6) -- the
context list is never chunked into bounded batches, and the configuration
offers no batch-size value to chunk by. -/
theorem c9_counterexample :
    (slideCalls {} [
      { runs := [plainRun "a"], context := TaskContext.standard },
      { runs := [plainRun "b"], context := TaskContext.standard },
      { runs := [plainRun "c"], context := TaskContext.standard },
      { runs := [plainRun "d"], context := TaskContext.standard },
      { runs := [plainRun "e"], context := TaskContext.standard },
      { runs := [plainRun "f"], context := TaskContext.standard },
      { runs := [plainRun "g"], context := TaskContext.standard }]).length = 1 ∧
    ((slideCalls {} [
      { runs := [plainRun "a"], context := TaskContext.standard },
      { runs := [plainRun "b"], context := TaskContext.standard },
      { runs := [plainRun "c"], context := TaskContext.standard },
      { runs := [plainRun "d"], context := TaskContext.standard },
      { runs := [plainRun "e"], context := TaskContext.standard },
      { runs := [plainRun "f"], context := TaskContext.standard },
      { runs := [plainRun "g"], context := TaskContext.standard }]).headD []).map
        (fun it => it.id) = [0, 1, 2, 3, 4, 5, 6] := by
  refine ⟨by with_unfolding_all decide, by with_unfolding_all decide⟩

/-- C4 (amended): reconstruction applies exactly the decoded styles --
the rebuilt runs are a function of the markup alone, independent of the
original paragraph (hence of any original/translated width ratio), and each
rebuilt run carries the decoded absolute font size (truthiness-guarded),
with no constrained-context scaling; shrinking happens only in the later
reflow pass. -/
theorem c4_theorem (htmlText : String) (old1 old2 : List SrcRun)
    (hne : htmlText ≠ "") (hparsed : decodeHtml htmlText ≠ []) :
    reconstructParagraph old1 htmlText = reconstructParagraph old2 htmlText ∧
    (reconstructParagraph old1 htmlText).map (fun r => r.size) =
      (decodeHtml htmlText).map (fun pr => truthySize pr.style.font_size) := by
  have hx : ∀ old, reconstructParagraph old htmlText =
      (decodeHtml htmlText).map (fun pr => applyStyle pr.style (htmlUnescape pr.text)) := by
    intro old
    simp only [reconstructParagraph]
    rw [if_neg hne, if_neg hparsed]
  have hsize : (fun pr : ParsedRun => (applyStyle pr.style (htmlUnescape pr.text)).size) =
      (fun pr : ParsedRun => truthySize pr.style.font_size) :=
    funext fun pr => rfl
  refine ⟨by rw [hx old1, hx old2], ?_⟩
  rw [hx old1, List.map_map]
  exact congrArg (fun f => List.map f (decodeHtml htmlText)) hsize

/-- C4 witness: the amended theorem applied to the 10pt markup, showing the
rebuilt runs do not depend on the original paragraph. -/
theorem c4_witness :
    ("<sz v=\"10\">WWWW</sz>" ≠ "") ∧
    reconstructParagraph [{ plainRun "WW" with size := some (10 : ℚ) }]
        "<sz v=\"10\">WWWW</sz>" =
      reconstructParagraph [] "<sz v=\"10\">WWWW</sz>" :=
  ⟨by decide,
    (c4_theorem ("<sz v=\"10\">WWWW</sz>")
      [{ plainRun "WW" with size := some (10 : ℚ) }] [] (by decide)
      (by with_unfolding_all decide)).1⟩

set_option maxRecDepth 2000 in
/-- C5 counterexample: a frame whose only run consists of a newline has
zero estimated linear width, so the fitting step returns before scaling
even though the estimated height (304800 EMU, from the 20pt max size) far
exceeds the 100000 EMU available height -- the claim would require every
run to be scaled there. -/
theorem c5_counterexample :
    applyManualFit [[{ text := "\n", size := some (20 : ℚ) }]] 914400 100000 =
      embedFrame [[{ text := "\n", size := some (20 : ℚ) }]] ∧
    estimatedTotalHeight [[{ text := "\n", size := some (20 : ℚ) }]] 914400 = 304800 ∧
    ((100000 : ℚ) < 304800) ∧
    applyManualFit [[{ text := "\n", size := some (20 : ℚ) }]] 914400 100000 ≠
      scaleFontSize [[{ text := "\n", size := some (20 : ℚ) }]]
        (fitScaleFactor [[{ text := "\n", size := some (20 : ℚ) }]] 914400 100000) := by
  have hzero : totalLinearWidth [[({ text := "\n", size := some (20 : ℚ) } : FitRun)]] = 0 := by
    with_unfolding_all rfl
  have hEst : estimatedTotalHeight [[({ text := "\n", size := some (20 : ℚ) } : FitRun)]] 914400
      = 304800 := by
    with_unfolding_all rfl
  have hneg : ¬ ((914400 : ℚ) ≤ 0) := by norm_num
  have hfit : applyManualFit [[({ text := "\n", size := some (20 : ℚ) } : FitRun)]] 914400 100000 =
      embedFrame [[{ text := "\n", size := some (20 : ℚ) }]] := by
    simp only [applyManualFit]
    rw [if_neg hneg, if_pos hzero]
  have hk : fitScaleFactor [[({ text := "\n", size := some (20 : ℚ) } : FitRun)]] 914400 100000
      < 1 := by
    apply fitScaleFactor_lt_one
    rw [hEst, effAvailableHeight_of_pos (by norm_num)]
    norm_num
  refine ⟨hfit, hEst, by norm_num, ?_⟩
  intro heq
  rw [hfit] at heq
  simp [embedFrame, scaleFontSize, embedRun, scaleRunR] at heq
  split at heq
  · norm_num at heq
  · nlinarith [hk]

/-- C7 (amended): decoding is total and degrades gracefully; a close tag
arriving when no tag is open is a no-op, and otherwise a close tag pops the
innermost open style whatever its tag name (it need not match); a tag left
unclosed at end of input is implicitly closed there, as the two concrete
decodes of the claim show (one bold run; one bold 12pt run). -/
theorem c7_theorem :
    (∀ (st : PState) (tag : String), tag ≠ "br" →
      (st.style_stack = [] → handleEndTag st tag = st) ∧
      ∀ s rest, st.style_stack = s :: rest →
        handleEndTag st tag = { st with current_style := s, style_stack := rest }) ∧
    decodeHtml "<b>Unclosed" =
      [{ text := "Unclosed", style := { defaultStyle with bold := true } }] ∧
    decodeHtml "<sz v=\"12\"><b>BoldText</b></sz>" =
      [{ text := "BoldText",
         style := { defaultStyle with bold := true, font_size := some (12 : ℚ) } }] := by
  refine ⟨?_, by with_unfolding_all decide, by with_unfolding_all decide⟩
  intro st tag htag
  constructor
  · intro hempty
    unfold handleEndTag
    rw [if_neg htag, hempty]
  · intro s rest hcons
    unfold handleEndTag
    rw [if_neg htag, hcons]

/-- C7 witness: the no-op clause of the amended theorem applied to a close
tag for i with an empty style stack. -/
theorem c7_witness :
    (("i" : String) ≠ "br") ∧
    handleEndTag { current_style := defaultStyle, style_stack := [], runs := [] } "i" =
      { current_style := defaultStyle, style_stack := [], runs := [] } :=
  ⟨by decide,
    (c7_theorem.1 { current_style := defaultStyle, style_stack := [], runs := [] } "i"
      (by decide)).1 rfl⟩

/-- C8 counterexample: a sibling whose top edge exactly touches the bottom
of the shape's vertical span is treated as an obstruction by the code's
closed-interval test, capping the widening at the sibling's left edge; the
claimed open-interval test would ignore it and widen to the slide edge. -/
theorem c8_counterexample :
    adjustTextBoxWidth { left := 0, top := 0, width := 914400, height := 1000000 }
      [{ left := 2000000, top := 1000000, width := 10, height := 500000 }] 9144000
      = 1908560 ∧
    claimWidthOpen { left := 0, top := 0, width := 914400, height := 1000000 }
      [{ left := 2000000, top := 1000000, width := 10, height := 500000 }] 9144000
      = 9052560 ∧
    (1908560 : ℤ) ≠ 9052560 := by
  refine ⟨by with_unfolding_all decide, by with_unfolding_all decide, by with_unfolding_all decide⟩

end SlideTrans
